import Mathlib

namespace PyTake2

/-!
Verification of the PyTake2 take-management module (src/PyTake2.py).

Shallow embedding conventions:
* Python dicts become association lists whose update (`updA`) replaces a
  binding in place and otherwise appends, mirroring CPython's
  insertion-ordered dicts.
* The Houdini host (`hou`) becomes an explicit `Scene` record: the node
  graph is a list of `Node` values and the hscript channel is an oracle
  `String → String × String` returning `(output, error)`, with an empty
  error string meaning success (§6 of the module's interface).
* Fallible Python code returns `Except PyErr`; each operation also returns
  the ordered list of hscript commands it issued.
-/

/-- Python values stored in take-member records (bools from flag getters,
numbers/strings from parameter evaluation, `None` from callers). -/
inductive PyVal where
  | vBool (b : Bool)
  | vInt (n : Int)
  | vStr (s : String)
  | vNone
  deriving DecidableEq, Repr

/-- One member record: a Python dict `{parm_or_flag_name : value}`. -/
abbrev Rec := List (String × PyVal)

/-- Embedding of `Take.node_included`: a Python dict `{node_path : Rec}`. -/
abbrev Store := List (String × Rec)

/-- Python `d[k] = v`: replace the binding in place when the key exists,
otherwise append it (CPython dict assignment keeps first-insertion order). -/
def updA {β : Type} : List (String × β) → String → β → List (String × β)
  | [], k, v => [(k, v)]
  | (a, b) :: t, k, v => if a == k then (k, v) :: t else (a, b) :: updA t k v

/-- Python `d.pop(k, None)`: drop the binding when present. -/
def popA {β : Type} (d : List (String × β)) (k : String) : List (String × β) :=
  d.filter (fun kv => !(kv.1 == k))

/-- Python `d[k]` as a total lookup: the first binding of `k`. -/
def lookupA {β : Type} (d : List (String × β)) (k : String) : Option β :=
  (d.find? (fun kv => kv.1 == k)).map (fun kv => kv.2)

/-- A dict is well formed when its keys are pairwise distinct (always true
for dicts built by `updA`/`popA` from `[]`). -/
def WFKeys {β : Type} (d : List (String × β)) : Prop :=
  (d.map Prod.fst).Nodup

/-- Python `==` on dicts ignores binding order: equal key sets, equal values. -/
def pyDictEq {β : Type} [BEq β] (a b : List (String × β)) : Bool :=
  a.all (fun kv => lookupA b kv.1 == some kv.2) &&
  b.all (fun kv => lookupA a kv.1 == some kv.2)

/-- Python `dict(items)`: fold dict assignment over a pair list (later
duplicates overwrite the value, first occurrence fixes the position). -/
def pyDictOfItems {β : Type} (l : List (String × β)) : List (String × β) :=
  l.foldl (fun d kv => updA d kv.1 kv.2) []

/-- A live Houdini node, as far as PyTake2 observes one: its path, its
parameters with their current evaluated values, and its three optional
flags.  A `none` flag means the node type lacks the flag, so the probing
calls (`isDisplayFlagSet` …) raise `AttributeError` in the source. -/
structure Node where
  path : String
  parms : List (String × PyVal)
  displayFlag : Option Bool
  renderFlag : Option Bool
  bypassFlag : Option Bool
  deriving Repr

/-- The host state PyTake2 reads: the node graph, the current take-name
list (the parsed output of `takels`, i.e. `_listTakeNames`, src 766-768),
and the hscript command channel. -/
structure Scene where
  nodes : List Node
  takeList : List String
  host : String → String × String

/-- Embedding of `hou.node(path)`. -/
def houNode (sc : Scene) (p : String) : Option Node :=
  sc.nodes.find? (fun n => n.path == p)

/-- Embedding of `n.parm(name)` together with its `.eval()` value. -/
def parmOf (n : Node) (k : String) : Option PyVal :=
  lookupA n.parms k

/-- The exception classes raised by the module (src 877-896) together with
the Python builtins that can escape from it. -/
inductive PyErr where
  | takeError (msg : String)
  | takeCreationError (msg : String)
  | takeSetError (msg : String)
  | takeDeleteError (msg : String)
  | invalidFlagType (msg : String)
  | invalidNode (msg : String)
  | keyError (key : String)
  | attributeError
  | tabError (msg : String)
  | indexError
  deriving DecidableEq, Repr

/-- Embedding of `isinstance(e, TakeError)` for the class hierarchy of src 877-896:
the five subclasses and `TakeError` itself are TakeError-class, the
builtins (`KeyError`, `AttributeError`, `TabError`, `IndexError`) are not. -/
def isTakeErrorClass : PyErr → Bool
  | .takeError _ | .takeCreationError _ | .takeSetError _
  | .takeDeleteError _ | .invalidFlagType _ | .invalidNode _ => true
  | _ => false

/-! ## Name allocator (`_checkName`, `_incName`, src 716-762) -/

/-- The legal character set of `_checkName` (src 753). -/
def legalChars : List Char := "abcdefghijklmnopqrstuvwxyz0123456789_".data

/-- Embedding of `_checkName` (src 750-762): keep a character whose lower-case form is
legal, replace every other character by an underscore. -/
def checkName (name : String) : String :=
  String.mk (name.data.map (fun c => if c.toLower ∈ legalChars then c else '_'))

/-- Decimal rendering, fuelled so that it reduces definitionally (the fuel
`n + 1` always suffices, `natToDec_cons_eq`). -/
def natToDecAux : Nat → Nat → List Char
  | 0, _ => []
  | fuel+1, n =>
    if n < 10 then [Char.ofNat (48 + n)]
    else natToDecAux fuel (n / 10) ++ [Char.ofNat (48 + n % 10)]

/-- Decimal rendering of a natural number, most significant digit first:
the embedding of Python's `str(int)`. -/
def natToDec (n : Nat) : List Char := natToDecAux (n + 1) n

/-- Parse a run of decimal digit characters: the embedding of Python's
`int(str_of_digits)`. -/
def decToNat (l : List Char) : Nat :=
  Nat.ofDigits 10 ((l.map (fun c => c.toNat - 48)).reverse)

/-- The maximal trailing digit run of a name: the `digit_part` collected by
the reversed-iteration loop of `_incName` (src 722-732).  Python's
`str.isdigit` agrees with `Char.isDigit` on the ASCII names at play. -/
def trailingDigits (l : List Char) : List Char :=
  (l.reverse.takeWhile Char.isDigit).reverse

/-- Python `name[0:-k]`. -/
def dropLastN (l : List Char) (k : Nat) : List Char :=
  l.take (l.length - k)

/-- The fuelled loop body of `_incName` (src 720-744): while the name is in
the take list, either bump the trailing digit run by one, or append the
counter `ind` (which the source increments only on that branch). -/
def incAux (takeNames : List String) : Nat → Nat → String → String
  | 0, _, name => name
  | fuel+1, ind, name =>
    if name ∈ takeNames then
      let digitPart := trailingDigits name.data
      if digitPart.isEmpty then
        incAux takeNames fuel (ind + 1) (String.mk (name.data ++ natToDec ind))
      else
        incAux takeNames fuel ind
          (String.mk (dropLastN name.data digitPart.length ++
            natToDec (decToNat digitPart + 1)))
    else name

/-- Embedding of `_incName` (src 716-746).  The source's `while` loop terminates because
successive probed names are pairwise distinct members of the take list, so
`takeNames.length + 1` rounds of fuel always reach the exit condition
(proved below as `incName_not_mem`). -/
def incName (takeNames : List String) (name : String) : String :=
  incAux takeNames (takeNames.length + 1) 1 name

/-- Modelled from the spec (§4.1 NameAllocator), for comparison with
`_incName` only: one probing step strips a maximal trailing digit run and
re-appends its successor, or appends `1` when there is no trailing digit
run. -/
def specProbeStep (name : String) : String :=
  if (trailingDigits name.data).isEmpty then
    String.mk (name.data ++ natToDec 1)
  else
    String.mk (dropLastN name.data (trailingDigits name.data).length ++
      natToDec (decToNat (trailingDigits name.data) + 1))

/-- Iterate `specProbeStep` while the name is taken (fuelled). -/
def specIter (takeNames : List String) : Nat → String → String
  | 0, n => n
  | f+1, n => if n ∈ takeNames then specIter takeNames f (specProbeStep n) else n

/-! ### Trailing digit runs -/

/-- A name whose last character is not a digit (or which is empty): the
shape of the base left behind after stripping a maximal digit run. -/
def goodEnd (b : List Char) : Prop :=
  ∀ c, b.getLast? = some c → c.isDigit = false

/-- Membership in the family of names probed from base `b` after suffix
value `s` (bounded search makes it a boolean). -/
def inFam (b : List Char) (s : Nat) (m : String) : Bool :=
  (List.range (10 ^ m.data.length)).any
    (fun k => decide (s ≤ k) && decide (m.data = b ++ natToDec k))

/-! ## Flag and parameter inclusion (`Take._includeExcludeFlag`,
`Take.includeParms`, src 235-531)

Every operation returns its result paired with the ordered list of
hscript commands it issued. -/

/-- Embedding of `setDisplayFlag` / `setRenderFlag` / `bypass` on a node of the scene.
The source only reaches these calls after probing the corresponding getter,
so the flag field is present there; a missing field is left untouched
(mirroring the try/except of src 473-489 on the one path that guards it). -/
def setNodeFlag (sc : Scene) (path which : String) (v : Bool) : Scene :=
  { sc with nodes := sc.nodes.map (fun n =>
      if n.path == path then
        (if which == "-d" then { n with displayFlag := n.displayFlag.map (fun _ => v) }
         else if which == "-r" then { n with renderFlag := n.renderFlag.map (fun _ => v) }
         else { n with bypassFlag := n.bypassFlag.map (fun _ => v) })
      else n) }

/-- Embedding of `n.parm(k).set(v)` on the scene. -/
def setNodeParm (sc : Scene) (path k : String) (v : PyVal) : Scene :=
  { sc with nodes := sc.nodes.map (fun n =>
      if n.path == path then { n with parms := updA n.parms k v } else n) }

/-- Python truthiness of the values the module passes around. -/
def pyTruthy : PyVal → Bool
  | .vBool b => b
  | .vInt n => decide (n ≠ 0)
  | .vStr s => decide (s ≠ "")
  | .vNone => false

/-- The flag probe of `_includeExcludeFlag` (src 280-302), together with
the stored value computed by `includeFlagToDic` (src 252-260): the render
branch reads `isDisplayFlagSet` for its value (src 257-258), and an
`AttributeError` from either read is caught by the same handler and
becomes `InvalidFlagType`. -/
def flagProbe (n : Node) (flag nodePath : String) : Except PyErr (String × Bool) :=
  if flag == "-d" then
    match n.displayFlag with
    | some v => .ok ("display_flag", v)
    | none => .error (.invalidFlagType
        ("Node: " ++ nodePath ++ " does not have display flag."))
  else if flag == "-b" then
    match n.bypassFlag with
    | some v => .ok ("bypass_flag", v)
    | none => .error (.invalidFlagType
        ("Node: " ++ nodePath ++ " does not have bypass flag."))
  else
    match n.renderFlag with
    | none => .error (.invalidFlagType
        ("Node: " ++ nodePath ++ " does not have render flag."))
    | some _ =>
      match n.displayFlag with
      | some v => .ok ("render_flag", v)
      | none => .error (.invalidFlagType
          ("Node: " ++ nodePath ++ " does not have render flag."))

/-- The local dict update of `includeFlagToDic` (src 262-276): insert or
merge the flag on inclusion, and on exclusion read the existing record
(a `KeyError` when the path is absent) and pop the flag from it. -/
def flagDictUpdate (st : Store) (nodePath label : String)
    (flagVal includeF : Bool) : Except PyErr Store :=
  if includeF then
    match lookupA st nodePath with
    | some r => .ok (updA st nodePath (updA r label (.vBool flagVal)))
    | none => .ok (updA st nodePath [(label, .vBool flagVal)])
  else
    match lookupA st nodePath with
    | none => .error (.keyError nodePath)
    | some r => .ok (updA st nodePath (popA r label))

/-- The clean-empty-record step (src 314-317 and 526-529): drop the path
when its record became the empty dict. -/
def flagCleanup (st : Store) (nodePath : String) : Store :=
  if lookupA st nodePath == some ([] : Rec) then popA st nodePath else st

/-- The `takeinclude` directive text of src 319 (an exclusion carries the
`-u` token). -/
def takeincludeCmd (includeF : Bool) (flag nodePath : String) : String :=
  "takeinclude " ++ (if includeF then "" else "-u") ++ " " ++ flag ++ " " ++ nodePath

/-- The optional flag write-back of src 326-335 (inclusion only: the
source tests `includeFlag != "-u"`, which is the original boolean), with
Python's return value. -/
def flagSetAfter (sc : Scene) (nodePath flag : String)
    (includeF set_flag flag_value : Bool) : Scene × Option Bool :=
  if flag == "-d" && set_flag && includeF then
    (setNodeFlag sc nodePath "-d" flag_value, some true)
  else if flag == "-r" && set_flag && includeF then
    (setNodeFlag sc nodePath "-r" flag_value, some true)
  else if flag == "-b" && set_flag && includeF then
    (setNodeFlag sc nodePath "-b" flag_value, some true)
  else (sc, none)

/-- Embedding of `Take._includeExcludeFlag` (src 235-336).  `nodePath` is the path-string
form of the `node_path` argument (a `hou.Node` argument only changes how
the path is obtained, src 239-249).  The local dict update — including the
`KeyError` of an exclusion on an absent path — happens before any hscript
call; then `setCurrent` (src 306), the empty-record cleanup (src 314-317),
the `takeinclude` directive (src 319-321) and the optional flag
write-back. -/
def includeExcludeFlag (sc : Scene) (selfName : String) (st : Store)
    (flag : String) (nodePath : String) (includeF : Bool)
    (set_flag : Bool) (flag_value : Bool) :
    Except PyErr (Store × Scene × Option Bool) × List String :=
  match houNode sc nodePath with
  | none => (.error (.invalidNode nodePath), [])
  | some n =>
    match flagProbe n flag nodePath with
    | .error e => (.error e, [])
    | .ok (label, flagVal) =>
      match flagDictUpdate st nodePath label flagVal includeF with
      | .error e => (.error e, [])
      | .ok st1 =>
        if (sc.host ("takeset " ++ selfName)).2 ≠ "" then
          (.error (.takeSetError ("Take " ++ selfName ++ " not found.")),
            ["takeset " ++ selfName])
        else if (sc.host (takeincludeCmd includeF flag nodePath)).2 ≠ "" then
          (.error (.takeError (sc.host (takeincludeCmd includeF flag nodePath)).2),
            ["takeset " ++ selfName, takeincludeCmd includeF flag nodePath])
        else
          (.ok (flagCleanup st1 nodePath,
              (flagSetAfter sc nodePath flag includeF set_flag flag_value).1,
              (flagSetAfter sc nodePath flag includeF set_flag flag_value).2),
            ["takeset " ++ selfName, takeincludeCmd includeF flag nodePath])

/-- Embedding of `Take.includeDisplayFlag` (src 350-359). -/
def includeDisplayFlag (sc : Scene) (selfName : String) (st : Store)
    (node : String) (inc set_flag flag_value : Bool) :
    Except PyErr (Store × Scene × Option Bool) × List String :=
  includeExcludeFlag sc selfName st "-d" node inc set_flag flag_value

/-- Embedding of `Take.includeRenderFlag` (src 338-347). -/
def includeRenderFlag (sc : Scene) (selfName : String) (st : Store)
    (node : String) (inc set_flag flag_value : Bool) :
    Except PyErr (Store × Scene × Option Bool) × List String :=
  includeExcludeFlag sc selfName st "-r" node inc set_flag flag_value

/-- Embedding of `Take.includeBypassFlag` (src 361-370). -/
def includeBypassFlag (sc : Scene) (selfName : String) (st : Store)
    (node : String) (inc set_flag flag_value : Bool) :
    Except PyErr (Store × Scene × Option Bool) × List String :=
  includeExcludeFlag sc selfName st "-b" node inc set_flag flag_value

/-- The per-key directive loop of `Take.includeParms` (src 420-467): one
`takeinclude` directive per requested key, collecting into
`parms_included` the keys actually recorded (flag keys always, other keys
only when the parameter exists; a missing parameter only prints a warning
and sends an empty parameter token). -/
def includeParmsLoop (sc : Scene) (n : Node) (incFlagStr : String) :
    List (String × PyVal) → Rec → List String → Except PyErr Rec × List String
  | [], acc, tr => (.ok acc, tr)
  | (key, v) :: rest, acc, tr =>
    if key == "display_flag" then
      if (sc.host ("takeinclude " ++ incFlagStr ++ " -d " ++ n.path)).2 ≠ "" then
        (.error (.takeSetError (sc.host ("takeinclude " ++ incFlagStr ++ " -d " ++ n.path)).2),
          tr ++ ["takeinclude " ++ incFlagStr ++ " -d " ++ n.path])
      else includeParmsLoop sc n incFlagStr rest (updA acc key v)
        (tr ++ ["takeinclude " ++ incFlagStr ++ " -d " ++ n.path])
    else if key == "render_flag" then
      if (sc.host ("takeinclude " ++ incFlagStr ++ " -r " ++ n.path)).2 ≠ "" then
        (.error (.takeSetError (sc.host ("takeinclude " ++ incFlagStr ++ " -r " ++ n.path)).2),
          tr ++ ["takeinclude " ++ incFlagStr ++ " -r " ++ n.path])
      else includeParmsLoop sc n incFlagStr rest (updA acc key v)
        (tr ++ ["takeinclude " ++ incFlagStr ++ " -r " ++ n.path])
    else if key == "bypass_flag" then
      if (sc.host ("takeinclude " ++ incFlagStr ++ " -b " ++ n.path)).2 ≠ "" then
        (.error (.takeSetError (sc.host ("takeinclude " ++ incFlagStr ++ " -b " ++ n.path)).2),
          tr ++ ["takeinclude " ++ incFlagStr ++ " -b " ++ n.path])
      else includeParmsLoop sc n incFlagStr rest (updA acc key v)
        (tr ++ ["takeinclude " ++ incFlagStr ++ " -b " ++ n.path])
    else
      if (sc.host ("takeinclude " ++ incFlagStr ++ " " ++ n.path ++ " " ++
          (if (parmOf n key).isSome then key else ""))).2 ≠ "" then
        (.error (.takeSetError (sc.host ("takeinclude " ++ incFlagStr ++ " " ++
          n.path ++ " " ++ (if (parmOf n key).isSome then key else ""))).2),
          tr ++ ["takeinclude " ++ incFlagStr ++ " " ++ n.path ++ " " ++
            (if (parmOf n key).isSome then key else "")])
      else includeParmsLoop sc n incFlagStr rest
        (if (parmOf n key).isSome then updA acc key v else acc)
        (tr ++ ["takeinclude " ++ incFlagStr ++ " " ++ n.path ++ " " ++
          (if (parmOf n key).isSome then key else "")])

/-- The `set_parms_value` write-back block of `includeParms` (src 470-499):
best-effort flag and parameter sets; failures only print.  Parameter
existence is stable under these sets, so re-resolving the node in the
current scene agrees with the source's captured live object. -/
def setParmsBlock (nodePath : String) : Scene → List (String × PyVal) → Scene
  | sc, [] => sc
  | sc, (k, v) :: rest =>
    let sc1 :=
      if k == "display_flag" then setNodeFlag sc nodePath "-d" (pyTruthy v)
      else if k == "render_flag" then setNodeFlag sc nodePath "-r" (pyTruthy v)
      else if k == "bypass_flag" then setNodeFlag sc nodePath "-b" (pyTruthy v)
      else
        match houNode sc nodePath with
        | some n =>
          if (parmOf n k).isSome && pyTruthy v then setNodeParm sc nodePath k v else sc
        | none => sc
    setParmsBlock nodePath sc1 rest

/-- The `Add data` block of `includeParms` (src 502-512): a fresh path is
assigned the whole `parms_included` record, an existing one is merged
key-wise. -/
def parmsAddData (st : Store) (node_path : String) (P : Rec) : Store :=
  match lookupA st node_path with
  | none => updA st node_path P
  | some tmp => updA st node_path (P.foldl (fun r kv => updA r kv.1 kv.2) tmp)

/-- The `Remove data` block of `includeParms` (src 514-529): an absent path
is untouched; a record equal (as a Python dict) to `parms_included` is
dropped whole, otherwise the common keys are popped; an emptied record is
then cleaned up. -/
def parmsRemoveData (st : Store) (node_path : String) (P : Rec) : Store :=
  match lookupA st node_path with
  | none => st
  | some tmp =>
    flagCleanup
      (if pyDictEq tmp P then popA st node_path
       else updA st node_path
         (P.foldl (fun r kv => if (lookupA r kv.1).isSome then popA r kv.1 else r) tmp))
      node_path

/-- Embedding of `Take.includeParms` (src 373-531).  `node` is the path-string form of
the node argument (a `hou.Node` argument only changes how the path is
obtained, src 384-393). -/
def includeParms (sc : Scene) (selfName : String) (st : Store)
    (node : String) (parms_dict : Rec) (inc : Bool) (set_parms_value : Bool) :
    Except PyErr (Store × Scene) × List String :=
  match houNode sc node with
  | none => (.error (.invalidNode node), [])
  | some n =>
    if (sc.host ("takeset " ++ selfName)).2 ≠ "" then
      (.error (.takeSetError ("Take " ++ selfName ++ " not found.")),
        ["takeset " ++ selfName])
    else
      match (if parms_dict.isEmpty then
          (if (sc.host ("takeinclude " ++ (if inc then "" else "-u") ++ " " ++
              n.path ++ " *")).2 ≠ "" then
            (.error (.takeSetError (sc.host ("takeinclude " ++
              (if inc then "" else "-u") ++ " " ++ n.path ++ " *")).2),
              ["takeset " ++ selfName, "takeinclude " ++
                (if inc then "" else "-u") ++ " " ++ n.path ++ " *"])
          else ((.ok n.parms : Except PyErr Rec),
            ["takeset " ++ selfName, "takeinclude " ++
              (if inc then "" else "-u") ++ " " ++ n.path ++ " *"]))
        else
          includeParmsLoop sc n (if inc then "" else "-u") parms_dict []
            ["takeset " ++ selfName]) with
      | (.error e, tr) => (.error e, tr)
      | (.ok parms_included, tr) =>
        (.ok ((if inc then parmsAddData st n.path parms_included
               else parmsRemoveData st n.path parms_included),
              (if set_parms_value && inc && !parms_dict.isEmpty then
                setParmsBlock n.path sc parms_dict else sc)), tr)

/-- Embedding of `Take.includeParmsFromTake` (src 533-555).  `srcName`/`srcStore` are
the source take's name and `node_included` store; `take.getName()`
(src 653-661) and the body's own membership test (src 540) check the same
condition, and `take.getNodeIncluded()` (src 557-566) re-checks it after a
merge that does not change the take list. -/
def includeParmsFromTake (sc : Scene) (selfName : String) (dst : Store)
    (srcName : String) (srcStore : Store) (force : Bool) :
    Except PyErr Store × List String :=
  if srcName ∈ sc.takeList then
    let forceStr := if force then "-f" else ""
    let cmd := "takemerge " ++ forceStr ++ " " ++ selfName ++ " " ++ srcName
    if (sc.host cmd).2 ≠ "" then (.error (.takeError (sc.host cmd).2), [cmd])
    else (.ok (pyDictOfItems (dst ++ srcStore)), [cmd])
  else (.error (.takeError ("Can not find take: " ++ srcName)), [])

/-- Embedding of `returnToMainTake` (src 101-110): a failed `takeset Main` raises the
Python builtin `TabError` carrying the host's message. -/
def returnToMainTake (sc : Scene) : Except PyErr Bool × List String :=
  if (sc.host "takeset Main").2 ≠ "" then
    (.error (.tabError (sc.host "takeset Main").2), ["takeset Main"])
  else (.ok true, ["takeset Main"])

/-! ## Take construction (`Take.__init__`, `Take._createTake`, src 161-231) -/

/-- The in-memory take object: its (allocated) name, the `-p`-prefixed
parent string, the construction arguments kept on `self`, and the local
member store. -/
structure TakeObj where
  name : String
  parent : String
  set_to_current : Bool
  parms_dict : Store
  node_included : Store
  deriving Repr

/-- Embedding of `Take._createTake` (src 219-231).  A successful `takeadd` registers
the new name in the host's take list. -/
def createTake (sc : Scene) (parentStr name : String) :
    Except PyErr Scene × List String :=
  if name ∈ sc.takeList then
    (.error (.takeCreationError
      ("Can not add take " ++ name ++ ", already found in take list.")), [])
  else
    let cmd := "takeadd " ++ parentStr ++ " " ++ name
    if (sc.host cmd).2 ≠ "" then
      (.error (.takeCreationError ("Can not create take named: " ++ name)), [cmd])
    else (.ok { sc with takeList := sc.takeList ++ [name] }, [cmd])

/-- The `parms_dict` loop of `Take.__init__` (src 197-201): unresolvable
node keys are skipped, each resolvable one goes through `includeParms`. -/
def takeInitLoop (selfName : String) (setP : Bool) :
    Scene → Store → List (String × Rec) → List String →
      Except PyErr (Store × Scene) × List String
  | sc, st, [], tr => (.ok (st, sc), tr)
  | sc, st, (key, r) :: rest, tr =>
    match houNode sc key with
    | none => takeInitLoop selfName setP sc st rest tr
    | some _ =>
      match includeParms sc selfName st key r true setP with
      | (.error e, tr2) => (.error e, tr ++ tr2)
      | (.ok (st2, sc2), tr2) => takeInitLoop selfName setP sc2 st2 rest (tr ++ tr2)

/-- Embedding of `Take.__init__` (src 161-206).  `parent` is the name-string form of
the parent argument; when it is non-empty but neither in the take list nor
`"Main"`, the source prints a warning and replaces it by `"Main"`
(src 182-186).  The final `takeset` result is ignored by the source
(src 203-206). -/
def takeInit (sc : Scene) (name parent : String) (set_to_current : Bool)
    (parms_dict : Store) (set_parms : Bool) (add_to_scene : Bool) :
    Except PyErr (TakeObj × Scene) × List String :=
  let takeName :=
    if add_to_scene then incName sc.takeList (checkName name) else checkName name
  let parentStr :=
    if parent ≠ "" then
      (if parent ∉ sc.takeList ∧ parent ≠ "Main" then "-p Main" else "-p " ++ parent)
    else ""
  let afterCreate : Except PyErr Scene × List String :=
    if add_to_scene then createTake sc parentStr takeName else (.ok sc, [])
  match afterCreate with
  | (.error e, tr) => (.error e, tr)
  | (.ok sc1, tr) =>
    match takeInitLoop takeName set_parms sc1 [] parms_dict [] with
    | (.error e, tr2) => (.error e, tr ++ tr2)
    | (.ok (st2, sc2), tr2) =>
      let finalCmd := if set_to_current then "takeset " ++ takeName else "takeset Main"
      (.ok ({ name := takeName, parent := parentStr, set_to_current := set_to_current,
              parms_dict := parms_dict, node_included := st2 }, sc2),
        tr ++ tr2 ++ [finalCmd])

/-! ## Script reconciler (`_readScript`, src 772-871) -/

/-- Python `str.replace(pat, rep)` on char lists: replace non-overlapping
occurrences left to right, fuelled by the list length (each step consumes
at least one character when `pat` is nonempty). -/
def replaceAux (pat rep : List Char) : Nat → List Char → List Char
  | 0, l => l
  | _+1, [] => []
  | fuel+1, c :: cs =>
    if pat ≠ [] ∧ pat.isPrefixOf (c :: cs) then
      rep ++ replaceAux pat rep fuel ((c :: cs).drop pat.length)
    else c :: replaceAux pat rep fuel cs

/-- Python `s.replace(pat, rep)`. -/
def replaceStr (s pat rep : String) : String :=
  String.mk (replaceAux pat.data rep.data s.data.length s.data)

/-- Scan for `sub` as a prefix of some suffix of the list. -/
def hasSubstrAux (sub : List Char) : List Char → Bool
  | [] => sub.isEmpty
  | c :: cs => sub.isPrefixOf (c :: cs) || hasSubstrAux sub cs

/-- Python `sub in line`: contiguous substring containment. -/
def containsSub (line sub : String) : Bool :=
  hasSubstrAux sub.data line.data

/-- Python `str(n)`. -/
def natDecStr (n : Nat) : String := String.mk (natToDec n)

/-- Split on every occurrence of a separator, keeping empty pieces. -/
def splitCharAux (sep : Char) : List Char → List Char → List (List Char)
  | [], acc => [acc.reverse]
  | c :: cs, acc =>
    if c == sep then acc.reverse :: splitCharAux sep cs []
    else splitCharAux sep cs (c :: acc)

/-- Python `line.split(" ")`. -/
def splitSpaces (s : String) : List String :=
  (splitCharAux ' ' s.data []).map String.mk

/-- The nested `includeFlagToDic` of `_readScript` (src 794-812): when the
flag token occurs in the line, take the line's LAST whitespace token as the
node path; a stale path is silently skipped, otherwise the flag's current
value is merged under that path.  Here the `-r` branch really reads
`isRenderFlagSet` (src 803), and a node lacking the probed flag raises an
uncaught `AttributeError`. -/
def scriptFlagToDic (sc : Scene) (d : Store) (line : String)
    (flag label : String) : Except PyErr Store :=
  if containsSub line flag then
    let node_path := (splitSpaces line).getLastD ""
    match houNode sc node_path with
    | none => .ok d
    | some n =>
      let fv : Option Bool :=
        if flag == "-d" then n.displayFlag
        else if flag == "-r" then n.renderFlag
        else n.bypassFlag
      match fv with
      | none => .error .attributeError
      | some b =>
        .ok (updA d node_path
          (match lookupA d node_path with
           | none => [(label, .vBool b)]
           | some tmp => updA tmp label (.vBool b)))
  else .ok d

/-- The dict merge of src 837-843 and 848-864: record one parameter value
under a node path. -/
def scriptRecordParm (d : Store) (node_path parm : String) (v : PyVal) : Store :=
  updA d node_path
    (match lookupA d node_path with
     | none => [(parm, v)]
     | some tmp => updA tmp parm v)

/-- The no-flag branch of the `_readScript` loop (src 827-864): token 1 is
the node path (stale paths are skipped), token 2 the base parameter name.
A literally-named parameter is recorded as such; otherwise the numeric
suffixes `0..11` and then the axis letters are probed, every hit being
recorded under its own full name. -/
def scriptParmLine (sc : Scene) (d : Store) (line : String) : Except PyErr Store :=
  let toks := splitSpaces line
  match toks.get? 1 with
  | none => .error .indexError
  | some node_path =>
    match houNode sc node_path with
    | none => .ok d
    | some n =>
      match toks.get? 2 with
      | none => .error .indexError
      | some parm_name =>
        match parmOf n parm_name with
        | some v => .ok (scriptRecordParm d node_path parm_name v)
        | none =>
          let d1 := (List.range 12).foldl (fun acc i =>
            match parmOf n (parm_name ++ natDecStr i) with
            | some v => scriptRecordParm acc node_path (parm_name ++ natDecStr i) v
            | none => acc) d
          let d2 := (['x', 'y', 'z', 'u', 'v', 'w'] : List Char).foldl (fun acc c =>
            match parmOf n (parm_name ++ String.mk [c]) with
            | some v => scriptRecordParm acc node_path (parm_name ++ String.mk [c]) v
            | none => acc) d1
          .ok d2

/-- One line of the `_readScript` loop (src 790-864): strip the quiet-mode
marker, then dispatch on a SUBSTRING test for `-r`, `-d`, `-b` in that
order (src 815-824), falling back to the node/parm form. -/
def readScriptLine (sc : Scene) (d : Store) (line0 : String) : Except PyErr Store :=
  let line := replaceStr line0 " -q" ""
  if containsSub line "-r" then scriptFlagToDic sc d line "-r" "render_flag"
  else if containsSub line "-d" then scriptFlagToDic sc d line "-d" "display_flag"
  else if containsSub line "-b" then scriptFlagToDic sc d line "-b" "bypass_flag"
  else scriptParmLine sc d line

/-- The full `_readScript` loop over the (already `takeinclude`-filtered,
src 788) script lines. -/
def readScriptLines (sc : Scene) : Store → List String → Except PyErr Store
  | d, [] => .ok d
  | d, line :: rest =>
    match readScriptLine sc d line with
    | .error e => .error e
    | .ok d1 => readScriptLines sc d1 rest

/-! ## Sequences of include/exclude calls on one take (for the member-store
invariant of C2) -/

/-- One local include/exclude call: a flag call through
`_includeExcludeFlag` (the three public wrappers fix `flag`), or an
`includeParms` call. -/
inductive Op where
  | incFlag (flag node : String) (inc set_flag flag_value : Bool)
  | incParms (node : String) (parms_dict : Rec) (inc set_parms_value : Bool)

/-- Apply one call to the take's store and the scene. -/
def applyOp (selfName : String) (sc : Scene) (st : Store) :
    Op → Except PyErr (Store × Scene) × List String
  | .incFlag flag node inc sf fv =>
    match includeExcludeFlag sc selfName st flag node inc sf fv with
    | (.error e, tr) => (.error e, tr)
    | (.ok (st1, sc1, _), tr) => (.ok (st1, sc1), tr)
  | .incParms node pd inc spv => includeParms sc selfName st node pd inc spv

/-- Run a sequence of calls, stopping at the first failure. -/
def runOps (selfName : String) : Scene → Store → List Op → Except PyErr (Store × Scene)
  | sc, st, [] => .ok (st, sc)
  | sc, st, op :: rest =>
    match applyOp selfName sc st op with
    | (.error e, _) => .error e
    | (.ok (st1, sc1), _) => runOps selfName sc1 st1 rest

/-- The `parms_included` record a successful `includeParms` call computes
(src 405-467), as a pure function of the node and the request: all of the
node's parameters for an empty request, otherwise the flag keys plus the
requested keys that exist on the node. -/
def parmsIncludedOf (n : Node) (parms_dict : Rec) : Rec :=
  if parms_dict.isEmpty then n.parms
  else parms_dict.foldl (fun acc kv =>
    if kv.1 == "display_flag" || kv.1 == "render_flag" || kv.1 == "bypass_flag"
        || (parmOf n kv.1).isSome then updA acc kv.1 kv.2 else acc) []

/-- The side condition of the amended C2: an `includeParms` inclusion must
actually record at least one key. -/
def opGood (sc : Scene) : Op → Bool
  | .incFlag _ _ _ _ _ => true
  | .incParms node pd inc _ =>
    !inc || (match houNode sc node with
      | some n => !(parmsIncludedOf n pd).isEmpty
      | none => true)

/-- Whether `opGood` holds at every successfully executed step of the sequence. -/
def goodTrace (selfName : String) : Scene → Store → List Op → Bool
  | _, _, [] => true
  | sc, st, op :: rest =>
    opGood sc op &&
      (match applyOp selfName sc st op with
       | (.ok (st1, sc1), _) => goodTrace selfName sc1 st1 rest
       | (.error _, _) => true)

/-- No member record is empty (boolean form). -/
def noEmptyB (st : Store) : Bool := st.all (fun kv => !kv.2.isEmpty)

/-- No member record is empty. -/
def NoEmpty (st : Store) : Prop := ∀ kv ∈ st, kv.2 ≠ ([] : Rec)

/-- Concrete scene for the witnesses of the flag-call theorems. -/
def wNode : Node :=
  { path := "/obj/geo1", parms := [("tx", .vInt 0)],
    displayFlag := some false, renderFlag := some true, bypassFlag := some false }

/-- Scene with one node, two takes and an always-succeeding host. -/
def wScene : Scene :=
  { nodes := [wNode], takeList := ["Main", "t", "src"], host := fun _ => ("", "") }

/-- Host that rejects `takeset Main`. -/
def failMainScene : Scene :=
  { nodes := [], takeList := ["Main"],
    host := fun c => if c == "takeset Main" then ("", "no such take") else ("", "") }

/-- Scene with only the root take, every host call succeeding. -/
def c1Scene : Scene :=
  { nodes := [], takeList := ["Main"], host := fun _ => ("", "") }

/-- Scene in which a take named `t1` already exists. -/
def c5Scene : Scene :=
  { nodes := [], takeList := ["Main", "t1"], host := fun _ => ("", "") }

/-! ## C2: the member store can acquire an empty record -/

/-- Scene with a parameterless node. -/
def c2Scene : Scene :=
  { nodes := [{ path := "/obj/empty", parms := [], displayFlag := some false,
                renderFlag := some false, bypassFlag := some false }],
    takeList := ["Main", "t"], host := fun _ => ("", "") }

/-- Node whose PATH contains the substring `-d`. -/
def c3Node : Node :=
  { path := "/obj/geo-d", parms := [("tx", .vInt 1)],
    displayFlag := some true, renderFlag := some true, bypassFlag := some false }

def c3Scene : Scene :=
  { nodes := [c3Node], takeList := ["Main"], host := fun _ => ("", "") }

/-! ### Decimal rendering facts -/

theorem natToDecAux_eq : ∀ {f1 : Nat} {f2 n : Nat}, n < f1 → n < f2 →
    natToDecAux f1 n = natToDecAux f2 n := by
  intro f1
  induction f1 with
  | zero => intro f2 n h1 _; omega
  | succ f1 ih =>
    intro f2 n h1 h2
    cases f2 with
    | zero => omega
    | succ f2 =>
      simp only [natToDecAux]
      split
      · rfl
      · rename_i hge
        have hd : n / 10 < n := Nat.div_lt_self (by omega) (by omega)
        congr 1
        exact ih (by omega) (by omega)

theorem natToDec_cons_eq (n : Nat) :
    natToDec n = if n < 10 then [Char.ofNat (48 + n)]
      else natToDec (n / 10) ++ [Char.ofNat (48 + n % 10)] := by
  unfold natToDec
  simp only [natToDecAux]
  split
  · rfl
  · rename_i hge
    have hd : n / 10 < n := Nat.div_lt_self (by omega) (by omega)
    congr 1
    exact @natToDecAux_eq n (n / 10 + 1) (n / 10) (by omega) (by omega)

theorem natToDec_ne_nil (n : Nat) : natToDec n ≠ [] := by
  rw [natToDec_cons_eq]
  split <;> simp

theorem toNat_digit_char {d : Nat} (hd : d < 10) :
    (Char.ofNat (48 + d)).toNat - 48 = d := by
  interval_cases d <;> decide

theorem digit_char_isDigit {d : Nat} (hd : d < 10) :
    (Char.ofNat (48 + d)).isDigit = true := by
  interval_cases d <;> decide

theorem mem_natToDec_isDigit {n : Nat} {c : Char} (hc : c ∈ natToDec n) :
    c.isDigit = true := by
  induction n using Nat.strong_induction_on with
  | _ n ih =>
    rw [natToDec_cons_eq] at hc
    split at hc
    · rename_i hlt
      simp only [List.mem_singleton] at hc
      subst hc
      exact digit_char_isDigit hlt
    · rename_i hge
      rcases List.mem_append.mp hc with hm | hm
      · exact ih (n / 10) (Nat.div_lt_self (by omega) (by omega)) hm
      · simp only [List.mem_singleton] at hm
        subst hm
        exact digit_char_isDigit (Nat.mod_lt n (by omega))

theorem decToNat_append_digit (l : List Char) (c : Char) :
    decToNat (l ++ [c]) = (c.toNat - 48) + 10 * decToNat l := by
  unfold decToNat
  rw [List.map_append, List.reverse_append]
  simp [Nat.ofDigits_cons]

theorem decToNat_natToDec (n : Nat) : decToNat (natToDec n) = n := by
  induction n using Nat.strong_induction_on with
  | _ n ih =>
    rw [natToDec_cons_eq]
    split
    · rename_i hlt
      show decToNat [Char.ofNat (48 + n)] = n
      unfold decToNat
      simp [Nat.ofDigits_cons, Nat.ofDigits_nil, toNat_digit_char hlt]
    · rename_i hge
      rw [decToNat_append_digit, ih (n / 10) (Nat.div_lt_self (by omega) (by omega)),
        toNat_digit_char (Nat.mod_lt n (by omega))]
      omega

theorem natToDec_inj {a b : Nat} (h : natToDec a = natToDec b) : a = b := by
  have := congrArg decToNat h
  rwa [decToNat_natToDec, decToNat_natToDec] at this

theorem natToDec_length_lt (k : Nat) : k < 10 ^ (natToDec k).length := by
  induction k using Nat.strong_induction_on with
  | _ k ih =>
    rw [natToDec_cons_eq]
    split
    · rename_i hlt
      simpa using hlt
    · rename_i hge
      have h1 := ih (k / 10) (Nat.div_lt_self (by omega) (by omega))
      rw [List.length_append, List.length_singleton, pow_succ]
      omega

theorem takeWhile_append_all {p : Char → Bool} {l₁ : List Char} (l₂ : List Char)
    (h : ∀ x ∈ l₁, p x = true) :
    (l₁ ++ l₂).takeWhile p = l₁ ++ l₂.takeWhile p := by
  induction l₁ with
  | nil => simp
  | cons a t ih =>
    simp only [List.cons_append, List.takeWhile_cons]
    rw [h a (by simp)]
    simp only [if_true]
    rw [ih (fun x hx => h x (by simp [hx]))]

theorem takeWhile_nil_of_head {p : Char → Bool} {l : List Char}
    (h : ∀ c, l.head? = some c → p c = false) : l.takeWhile p = [] := by
  cases l with
  | nil => rfl
  | cons a t => simp [List.takeWhile_cons, h a rfl]

theorem trailingDigits_append_digits {b t : List Char} (hb : goodEnd b)
    (ht : ∀ c ∈ t, c.isDigit = true) : trailingDigits (b ++ t) = t := by
  unfold trailingDigits
  rw [List.reverse_append]
  rw [takeWhile_append_all _ (fun x hx => ht x (List.mem_reverse.mp hx))]
  rw [takeWhile_nil_of_head (fun c hc => hb c (by rwa [← List.head?_reverse]))]
  simp

theorem trailingDigits_append {b : List Char} (n : Nat) (hb : goodEnd b) :
    trailingDigits (b ++ natToDec n) = natToDec n :=
  trailingDigits_append_digits hb (fun _ hc => mem_natToDec_isDigit hc)

theorem dropLastN_append (b t : List Char) : dropLastN (b ++ t) t.length = b := by
  unfold dropLastN
  rw [List.length_append, Nat.add_sub_cancel]
  exact List.take_left b t

theorem head_dropWhile_false {p : Char → Bool} {l : List Char} {c : Char}
    (h : (l.dropWhile p).head? = some c) : p c = false := by
  induction l with
  | nil => simp [List.dropWhile] at h
  | cons a t ih =>
    rw [List.dropWhile_cons] at h
    by_cases hp : p a = true
    · rw [if_pos hp] at h; exact ih h
    · rw [if_neg hp] at h
      simp only [List.head?_cons, Option.some.injEq] at h
      rw [← h]
      simpa using hp

theorem trailing_decomp (l : List Char) :
    l = (l.reverse.dropWhile Char.isDigit).reverse ++ trailingDigits l := by
  unfold trailingDigits
  rw [← List.reverse_append, List.takeWhile_append_dropWhile, List.reverse_reverse]

theorem goodEnd_dropWhile_reverse (l : List Char) :
    goodEnd ((l.reverse.dropWhile Char.isDigit).reverse) := by
  intro c hc
  rw [List.getLast?_reverse] at hc
  exact head_dropWhile_false hc

theorem mem_trailingDigits_isDigit {l : List Char} {c : Char}
    (hc : c ∈ trailingDigits l) : c.isDigit = true := by
  unfold trailingDigits at hc
  exact List.mem_takeWhile_imp (List.mem_reverse.mp hc)

theorem dropLastN_trailing (l : List Char) :
    dropLastN l (trailingDigits l).length
      = (l.reverse.dropWhile Char.isDigit).reverse := by
  conv_lhs => rw [trailing_decomp l]
  rw [trailingDigits_append_digits (goodEnd_dropWhile_reverse l)
    (fun c hc => mem_trailingDigits_isDigit hc)]
  exact dropLastN_append _ _

theorem goodEnd_of_trailing_nil {l : List Char} (h : trailingDigits l = []) :
    goodEnd l := by
  intro c hc
  unfold trailingDigits at h
  rw [List.reverse_eq_nil_iff] at h
  rw [← List.head?_reverse] at hc
  cases hl : l.reverse with
  | nil => rw [hl] at hc; simp at hc
  | cons a t =>
    rw [hl] at hc h
    simp only [List.head?_cons, Option.some.injEq] at hc
    rw [List.takeWhile_cons] at h
    by_cases hp : Char.isDigit a = true
    · rw [if_pos hp] at h; simp at h
    · rw [← hc]; simpa using hp

/-! ### Counting helpers for loop termination -/

theorem countP_lt_length {α : Type} {p : α → Bool} {l : List α} {a : α}
    (ha : a ∈ l) (hpa : p a = false) : l.countP p < l.length := by
  induction l with
  | nil => simp at ha
  | cons b t ih =>
    rw [List.countP_cons, List.length_cons]
    rcases List.mem_cons.mp ha with rfl | hat
    · rw [hpa, if_neg (by decide)]
      have h2 : List.countP p t ≤ t.length := List.countP_le_length p
      omega
    · have h1 := ih hat
      by_cases hb : p b = true
      · rw [hb, if_pos rfl]; omega
      · rw [Bool.not_eq_true] at hb; rw [hb, if_neg (by decide)]; omega

theorem countP_lt_countP {α : Type} {p q : α → Bool} {l : List α}
    (hpq : ∀ x, q x = true → p x = true) {a : α} (ha : a ∈ l)
    (hp : p a = true) (hq : q a = false) : l.countP q < l.countP p := by
  induction l with
  | nil => simp at ha
  | cons b t ih =>
    rw [List.countP_cons, List.countP_cons]
    rcases List.mem_cons.mp ha with rfl | hat
    · rw [hp, hq, if_pos rfl, if_neg (by decide)]
      have h2 : List.countP q t ≤ List.countP p t :=
        List.countP_mono_left (fun x _ hx => hpq x hx)
      omega
    · have h1 := ih hat
      by_cases hb : q b = true
      · rw [hb, hpq b hb]; simp only [if_pos rfl]; omega
      · rw [Bool.not_eq_true] at hb; rw [hb, if_neg (by decide)]
        by_cases hpb : p b = true
        · rw [hpb, if_pos rfl]; omega
        · rw [Bool.not_eq_true] at hpb; rw [hpb, if_neg (by decide)]; omega

theorem inFam_iff {b : List Char} {s : Nat} {m : String} :
    inFam b s m = true ↔ ∃ k, s ≤ k ∧ m.data = b ++ natToDec k := by
  unfold inFam
  rw [List.any_eq_true]
  constructor
  · rintro ⟨k, _, hk⟩
    rw [Bool.and_eq_true, decide_eq_true_eq, decide_eq_true_eq] at hk
    exact ⟨k, hk.1, hk.2⟩
  · rintro ⟨k, hsk, hmk⟩
    refine ⟨k, List.mem_range.mpr ?_, by simp [hsk, hmk]⟩
    have hlen : (natToDec k).length ≤ m.data.length := by
      rw [hmk, List.length_append]; omega
    exact Nat.lt_of_lt_of_le (natToDec_length_lt k)
      (Nat.pow_le_pow_right (by norm_num) hlen)

theorem inFam_mono {b : List Char} {s : Nat} {m : String}
    (h : inFam b (s + 1) m = true) : inFam b s m = true := by
  rw [inFam_iff] at h ⊢
  obtain ⟨k, hk, hmk⟩ := h
  exact ⟨k, by omega, hmk⟩

/-! ### `_incName` terminates on a free name -/

theorem incAux_succ (L : List String) (f ind : Nat) (name : String) :
    incAux L (f + 1) ind name =
      if name ∈ L then
        (if (trailingDigits name.data).isEmpty then
          incAux L f (ind + 1) (String.mk (name.data ++ natToDec ind))
        else
          incAux L f ind
            (String.mk (dropLastN name.data (trailingDigits name.data).length ++
              natToDec (decToNat (trailingDigits name.data) + 1))))
      else name := rfl

theorem incAux_phase (L : List String) :
    ∀ fuel (b : List Char) (s ind : Nat), goodEnd b →
      L.countP (inFam b s) < fuel →
      incAux L fuel ind (String.mk (b ++ natToDec s)) ∉ L := by
  intro fuel
  induction fuel with
  | zero => intro b s ind _ hcnt; omega
  | succ f ih =>
    intro b s ind hb hcnt
    by_cases hmem : String.mk (b ++ natToDec s) ∈ L
    · have hdata : (String.mk (b ++ natToDec s)).data = b ++ natToDec s := rfl
      have htd : trailingDigits (String.mk (b ++ natToDec s)).data = natToDec s := by
        rw [hdata]; exact trailingDigits_append s hb
      have hne : (natToDec s).isEmpty = false :=
        List.isEmpty_eq_false.mpr (natToDec_ne_nil s)
      rw [incAux_succ, if_pos hmem, htd, hne]
      simp only [Bool.false_eq_true, if_false]
      have harg : String.mk (dropLastN (String.mk (b ++ natToDec s)).data
            (natToDec s).length ++ natToDec (decToNat (natToDec s) + 1))
          = String.mk (b ++ natToDec (s + 1)) := by
        rw [hdata, dropLastN_append, decToNat_natToDec]
      rw [harg]
      apply ih b (s + 1) ind hb
      have hp : inFam b s (String.mk (b ++ natToDec s)) = true :=
        inFam_iff.mpr ⟨s, le_refl s, hdata⟩
      have hq : inFam b (s + 1) (String.mk (b ++ natToDec s)) = false := by
        by_contra hq
        rw [Bool.not_eq_false, inFam_iff] at hq
        obtain ⟨k, hk, heq⟩ := hq
        rw [hdata] at heq
        have : natToDec s = natToDec k := List.append_cancel_left heq
        have := natToDec_inj this
        omega
      have hlt : L.countP (inFam b (s + 1)) < L.countP (inFam b s) :=
        countP_lt_countP (fun m hm => inFam_mono hm) hmem hp hq
      omega
    · rw [incAux_succ, if_neg hmem]
      exact hmem

theorem incName_not_mem (L : List String) (name : String) : incName L name ∉ L := by
  unfold incName
  by_cases hmem : name ∈ L
  · rw [incAux_succ, if_pos hmem]
    by_cases hd : (trailingDigits name.data).isEmpty
    · rw [if_pos hd]
      apply incAux_phase L L.length name.data 1 2
        (goodEnd_of_trailing_nil (List.isEmpty_iff.mp hd))
      apply countP_lt_length hmem
      by_contra hf
      rw [Bool.not_eq_false, inFam_iff] at hf
      obtain ⟨k, _, heq⟩ := hf
      have : (natToDec k).length = 0 := by
        have := congrArg List.length heq
        rw [List.length_append] at this
        omega
      exact natToDec_ne_nil k (List.length_eq_zero.mp this)
    · rw [if_neg hd]
      have hdec : name.data
          = (name.data.reverse.dropWhile Char.isDigit).reverse ++
            trailingDigits name.data := trailing_decomp name.data
      have hgood : goodEnd ((name.data.reverse.dropWhile Char.isDigit).reverse) :=
        goodEnd_dropWhile_reverse name.data
      rw [dropLastN_trailing]
      apply incAux_phase L L.length _ (decToNat (trailingDigits name.data) + 1) 1 hgood
      apply countP_lt_length hmem
      by_contra hf
      rw [Bool.not_eq_false, inFam_iff] at hf
      obtain ⟨k, hk, heq⟩ := hf
      have hcancel : trailingDigits name.data = natToDec k :=
        List.append_cancel_left (hdec.symm.trans heq)
      have := congrArg decToNat hcancel
      rw [decToNat_natToDec] at this
      omega
  · rw [incAux_succ, if_neg hmem]
    exact hmem

theorem incName_of_not_mem {L : List String} {name : String} (h : name ∉ L) :
    incName L name = name := by
  unfold incName
  rw [incAux_succ, if_neg h]

/-! ### `_incName` follows the spec's probing order -/

theorem specIter_succ (L : List String) (f : Nat) (n : String) :
    specIter L (f + 1) n
      = if n ∈ L then specIter L f (specProbeStep n) else n := rfl

theorem specProbeStep_trailing_ne {name : String} :
    (trailingDigits (specProbeStep name).data).isEmpty = false := by
  unfold specProbeStep
  by_cases hd : (trailingDigits name.data).isEmpty
  · rw [if_pos hd]
    have : (String.mk (name.data ++ natToDec 1)).data = name.data ++ natToDec 1 := rfl
    rw [this, trailingDigits_append 1 (goodEnd_of_trailing_nil (List.isEmpty_iff.mp hd))]
    exact List.isEmpty_eq_false.mpr (natToDec_ne_nil 1)
  · rw [if_neg hd]
    rw [dropLastN_trailing]
    have : (String.mk ((name.data.reverse.dropWhile Char.isDigit).reverse ++
          natToDec (decToNat (trailingDigits name.data) + 1))).data
        = (name.data.reverse.dropWhile Char.isDigit).reverse ++
          natToDec (decToNat (trailingDigits name.data) + 1) := rfl
    rw [this, trailingDigits_append _ (goodEnd_dropWhile_reverse name.data)]
    exact List.isEmpty_eq_false.mpr (natToDec_ne_nil _)

theorem incAux_eq_specIter (L : List String) :
    ∀ fuel ind name, (ind = 1 ∨ (trailingDigits name.data).isEmpty = false) →
      incAux L fuel ind name = specIter L fuel name := by
  intro fuel
  induction fuel with
  | zero => intro ind name _; rfl
  | succ f ih =>
    intro ind name hinv
    rw [incAux_succ, specIter_succ]
    by_cases hmem : name ∈ L
    · rw [if_pos hmem, if_pos hmem]
      by_cases hd : (trailingDigits name.data).isEmpty
      · rw [if_pos hd]
        have hind : ind = 1 := by
          rcases hinv with h | h
          · exact h
          · rw [h] at hd; cases hd
        subst hind
        have hstep : specProbeStep name = String.mk (name.data ++ natToDec 1) := by
          unfold specProbeStep; rw [if_pos hd]
        rw [← hstep]
        exact ih 2 (specProbeStep name) (Or.inr specProbeStep_trailing_ne)
      · rw [if_neg hd]
        have hstep : specProbeStep name
            = String.mk (dropLastN name.data (trailingDigits name.data).length ++
              natToDec (decToNat (trailingDigits name.data) + 1)) := by
          unfold specProbeStep; rw [if_neg hd]
        rw [← hstep]
        exact ih ind (specProbeStep name) (Or.inr specProbeStep_trailing_ne)
    · rw [if_neg hmem, if_neg hmem]

theorem specIter_orbit (L : List String) :
    ∀ fuel name, specIter L fuel name ∉ L →
      ∃ j, specIter L fuel name = Nat.iterate specProbeStep j name ∧
        ∀ i, i < j → Nat.iterate specProbeStep i name ∈ L := by
  intro fuel
  induction fuel with
  | zero =>
    intro name _
    exact ⟨0, rfl, by omega⟩
  | succ f ih =>
    intro name h
    rw [specIter_succ] at h ⊢
    by_cases hmem : name ∈ L
    · rw [if_pos hmem] at h ⊢
      obtain ⟨j, hj, hlt⟩ := ih _ h
      refine ⟨j + 1, ?_, ?_⟩
      · rw [Function.iterate_succ_apply]; exact hj
      · intro i hi
        cases i with
        | zero => simpa using hmem
        | succ i' =>
          rw [Function.iterate_succ_apply]
          exact hlt i' (by omega)
    · rw [if_neg hmem] at h ⊢
      exact ⟨0, rfl, by omega⟩

/-- C4: for every name N, if `_checkName N` is already in the take-name
list then `_incName` returns a name not in that list; if N is not in the
list then `_incName` returns N unchanged; and the result is always reached
by the deterministic probing order (strip a maximal trailing digit run and
retry with the successor suffix, or append a fresh counter when there is no
trailing digit run), stopping at the first free name of that orbit. -/
theorem c4_name_allocation (L : List String) (N : String) :
    (checkName N ∈ L → incName L (checkName N) ∉ L) ∧
    (N ∉ L → incName L N = N) ∧
    (∃ j, incName L N = Nat.iterate specProbeStep j N ∧
      (∀ i, i < j → Nat.iterate specProbeStep i N ∈ L) ∧
      Nat.iterate specProbeStep j N ∉ L) := by
  refine ⟨fun _ => incName_not_mem L (checkName N),
    fun h => incName_of_not_mem h, ?_⟩
  have hiter : incName L N = specIter L (L.length + 1) N := by
    unfold incName
    exact incAux_eq_specIter L (L.length + 1) 1 N (Or.inl rfl)
  have hnm : incName L N ∉ L := incName_not_mem L N
  rw [hiter] at hnm
  obtain ⟨j, hj, hlt⟩ := specIter_orbit L (L.length + 1) N hnm
  exact ⟨j, by rw [hiter, hj], hlt, by rw [← hj]; exact hnm⟩

theorem c4_name_allocation_witness :
    incName ["Main", "take1"] (checkName "take1") ∉ ["Main", "take1"] ∧
    incName ["Main", "take1"] "fresh" = "fresh" :=
  ⟨(c4_name_allocation ["Main", "take1"] "take1").1 (by decide),
   (c4_name_allocation ["Main", "take1"] "fresh").2.1 (by decide)⟩

/-! ## Dictionary lemmas -/

theorem noEmptyB_iff {st : Store} : noEmptyB st = true ↔ NoEmpty st := by
  unfold noEmptyB NoEmpty
  rw [List.all_eq_true]
  constructor
  · intro h kv hkv
    have := h kv hkv
    simpa [List.isEmpty_eq_false] using this
  · intro h kv hkv
    simpa [List.isEmpty_eq_false] using h kv hkv

theorem updA_ne_nil {β : Type} (d : List (String × β)) (k : String) (v : β) :
    updA d k v ≠ [] := by
  cases d with
  | nil => simp [updA]
  | cons a t =>
    unfold updA
    split <;> simp

theorem mem_updA {β : Type} {d : List (String × β)} {k : String} {v : β}
    {kv : String × β} (h : kv ∈ updA d k v) : kv = (k, v) ∨ kv ∈ d := by
  induction d with
  | nil => simpa [updA] using h
  | cons a t ih =>
    unfold updA at h
    split at h
    · rcases List.mem_cons.mp h with rfl | ht
      · exact Or.inl rfl
      · exact Or.inr (List.mem_cons.mpr (Or.inr ht))
    · rcases List.mem_cons.mp h with rfl | ht
      · exact Or.inr (List.mem_cons.mpr (Or.inl rfl))
      · rcases ih ht with h1 | h1
        · exact Or.inl h1
        · exact Or.inr (List.mem_cons.mpr (Or.inr h1))

theorem lookupA_cons {β : Type} (a : String × β) (t : List (String × β)) (k : String) :
    lookupA (a :: t) k = if a.1 == k then some a.2 else lookupA t k := by
  unfold lookupA
  rw [List.find?_cons]
  split <;> simp_all

theorem lookupA_updA_self {β : Type} (d : List (String × β)) (k : String) (v : β) :
    lookupA (updA d k v) k = some v := by
  induction d with
  | nil => simp [updA, lookupA, List.find?]
  | cons a t ih =>
    unfold updA
    split
    · simp [lookupA_cons]
    · rename_i hne
      rw [lookupA_cons, if_neg hne]
      exact ih

theorem lookupA_updA_ne {β : Type} {d : List (String × β)} {k k2 : String} {v : β}
    (h : k2 ≠ k) : lookupA (updA d k v) k2 = lookupA d k2 := by
  induction d with
  | nil =>
    simp only [updA, lookupA_cons]
    rw [if_neg (by simpa using fun hk => h hk.symm)]
  | cons a t ih =>
    unfold updA
    split
    · rename_i hak
      rw [lookupA_cons, lookupA_cons, if_neg (by simpa using fun hk => h hk.symm)]
      rw [beq_iff_eq] at hak
      rw [if_neg (by rw [hak]; simpa using fun hk => h hk.symm)]
    · rw [lookupA_cons, lookupA_cons]
      split
      · rfl
      · exact ih

theorem mem_popA {β : Type} {d : List (String × β)} {k : String}
    {kv : String × β} (h : kv ∈ popA d k) : kv ∈ d :=
  (List.mem_filter.mp h).1

theorem popA_key_ne {β : Type} {d : List (String × β)} {k : String}
    {kv : String × β} (h : kv ∈ popA d k) : kv.1 ≠ k := by
  have h2 := (List.mem_filter.mp h).2
  simpa using h2

theorem lookupA_popA_self {β : Type} (d : List (String × β)) (k : String) :
    lookupA (popA d k) k = none := by
  unfold lookupA
  rw [Option.map_eq_none']
  rw [List.find?_eq_none]
  intro kv hkv
  have := popA_key_ne hkv
  simpa using this

theorem noEmpty_lookup_ne_nil {st : Store} {k : String} {v : Rec}
    (h : NoEmpty st) (hl : lookupA st k = some v) : v ≠ [] := by
  unfold lookupA at hl
  cases hf : st.find? (fun kv => kv.1 == k) with
  | none => rw [hf] at hl; simp at hl
  | some kv =>
    rw [hf] at hl
    simp only [Option.map_some', Option.some.injEq] at hl
    subst hl
    exact h kv (List.mem_of_find?_eq_some hf)

theorem noEmpty_updA {st : Store} {k : String} {R : Rec}
    (h : NoEmpty st) (hR : R ≠ []) : NoEmpty (updA st k R) := by
  intro kv hkv
  rcases mem_updA hkv with rfl | hmem
  · exact hR
  · exact h kv hmem

theorem noEmpty_popA {st : Store} {k : String} (h : NoEmpty st) :
    NoEmpty (popA st k) := fun kv hkv => h kv (mem_popA hkv)

/-- The update-then-clean pattern shared by `_includeExcludeFlag`
(src 314-317) and the exclusion branch of `includeParms` (src 526-529):
whatever record is written at the touched path, the store stays free of
empty records. -/
theorem noEmpty_upd_cleanup {st : Store} (k : String) (R : Rec) (h : NoEmpty st) :
    NoEmpty (flagCleanup (updA st k R) k) := by
  unfold flagCleanup
  split
  · intro kv hkv
    have h1 : kv ∈ updA st k R := mem_popA hkv
    have h2 : kv.1 ≠ k := popA_key_ne hkv
    rcases mem_updA h1 with rfl | hmem
    · exact absurd rfl h2
    · exact h kv hmem
  · rename_i hc
    intro kv hkv
    rcases mem_updA hkv with rfl | hmem
    · intro hR
      apply hc
      rw [lookupA_updA_self]
      simp only [Prod.snd] at hR
      rw [hR]
      exact beq_self_eq_true _
    · exact h kv hmem

theorem noEmpty_cleanup {st : Store} (k : String) (h : NoEmpty st) :
    NoEmpty (flagCleanup st k) := by
  unfold flagCleanup
  split
  · exact noEmpty_popA h
  · exact h

theorem foldl_updA_ne_nil (P : Rec) : ∀ r : Rec, r ≠ [] →
    (P.foldl (fun r kv => updA r kv.1 kv.2) r) ≠ [] := by
  induction P with
  | nil => intro r hr; simpa using hr
  | cons a t ih =>
    intro r _
    rw [List.foldl_cons]
    exact ih _ (updA_ne_nil r a.1 a.2)

/-! ## Preservation of the no-empty-record invariant -/

/-- A successful `flagDictUpdate` writes some record at the touched path. -/
theorem flagDictUpdate_ok {st : Store} {nodePath label : String}
    {flagVal includeF : Bool} {stm : Store}
    (h : flagDictUpdate st nodePath label flagVal includeF = .ok stm) :
    ∃ R, stm = updA st nodePath R := by
  unfold flagDictUpdate at h
  split at h
  · split at h
    · exact ⟨_, (Except.ok.inj h).symm⟩
    · exact ⟨_, (Except.ok.inj h).symm⟩
  · split at h
    · exact absurd h (by simp)
    · exact ⟨_, (Except.ok.inj h).symm⟩

/-- Any store a successful `_includeExcludeFlag` call returns is the
update-then-clean of the input store at the touched path. -/
theorem includeExcludeFlag_ok_store {sc : Scene} {selfName : String} {st : Store}
    {flag nodePath : String} {incF sf fv : Bool} {st1 : Store} {sc1 : Scene}
    {r : Option Bool} {tr : List String}
    (hres : includeExcludeFlag sc selfName st flag nodePath incF sf fv
      = (.ok (st1, sc1, r), tr)) :
    ∃ R, st1 = flagCleanup (updA st nodePath R) nodePath := by
  unfold includeExcludeFlag at hres
  split at hres
  · exact absurd hres (by simp)
  · split at hres
    · exact absurd hres (by simp)
    · split at hres
      · exact absurd hres (by simp)
      · rename_i stm hupd
        obtain ⟨R, rfl⟩ := flagDictUpdate_ok hupd
        split at hres
        · exact absurd hres (by simp)
        · split at hres
          · exact absurd hres (by simp)
          · simp only [Prod.mk.injEq, Except.ok.injEq] at hres
            exact ⟨R, hres.1.1.symm⟩

/-- A successful `_includeExcludeFlag` call preserves the no-empty-record
invariant of the local store. -/
theorem includeExcludeFlag_noEmpty {sc : Scene} {selfName : String} {st : Store}
    {flag nodePath : String} {incF sf fv : Bool} {st1 : Store} {sc1 : Scene}
    {r : Option Bool} {tr : List String} (h : NoEmpty st)
    (hres : includeExcludeFlag sc selfName st flag nodePath incF sf fv
      = (.ok (st1, sc1, r), tr)) : NoEmpty st1 := by
  obtain ⟨R, rfl⟩ := includeExcludeFlag_ok_store hres
  exact noEmpty_upd_cleanup nodePath R h

/-- The record a successful `includeParmsLoop` run returns is the fold
described by `parmsIncludedOf`. -/
theorem includeParmsLoop_ok {sc : Scene} {n : Node} {fstr : String} :
    ∀ (pd : List (String × PyVal)) (acc : Rec) (tr tr2 : List String) (rec : Rec),
      includeParmsLoop sc n fstr pd acc tr = (.ok rec, tr2) →
      rec = pd.foldl (fun acc kv =>
        if kv.1 == "display_flag" || kv.1 == "render_flag" || kv.1 == "bypass_flag"
            || (parmOf n kv.1).isSome then updA acc kv.1 kv.2 else acc) acc := by
  intro pd
  induction pd with
  | nil =>
    intro acc tr tr2 rec h
    simp only [includeParmsLoop, Prod.mk.injEq, Except.ok.injEq] at h
    exact h.1.symm
  | cons a t ih =>
    intro acc tr tr2 rec h
    obtain ⟨key, v⟩ := a
    rw [List.foldl_cons]
    simp only [includeParmsLoop] at h
    split at h
    · rename_i hk
      split at h
      · exact absurd h (by simp)
      · rw [ih _ _ _ _ h]
        simp [hk]
    · rename_i hk1
      split at h
      · rename_i hk
        split at h
        · exact absurd h (by simp)
        · rw [ih _ _ _ _ h]
          simp [hk]
      · rename_i hk2
        split at h
        · rename_i hk
          split at h
          · exact absurd h (by simp)
          · rw [ih _ _ _ _ h]
            simp [hk]
        · rename_i hk3
          split at h
          · rename_i hsome
            split at h
            · exact absurd h (by simp)
            · rw [ih _ _ _ _ h]
              simp only [Bool.not_eq_true] at hk1 hk2 hk3
              simp [hk1, hk2, hk3, hsome]
          · rename_i hsome
            split at h
            · exact absurd h (by simp)
            · rw [ih _ _ _ _ h]
              simp only [Bool.not_eq_true] at hk1 hk2 hk3
              simp only [Bool.not_eq_true] at hsome
              simp [hk1, hk2, hk3, hsome]

theorem noEmpty_parmsAddData {st : Store} {k : String} {P : Rec}
    (h : NoEmpty st) (hP : P ≠ []) : NoEmpty (parmsAddData st k P) := by
  unfold parmsAddData
  split
  · exact noEmpty_updA h hP
  · rename_i tmp hl
    exact noEmpty_updA h (foldl_updA_ne_nil P tmp (noEmpty_lookup_ne_nil h hl))

theorem noEmpty_parmsRemoveData {st : Store} {k : String} {P : Rec}
    (h : NoEmpty st) : NoEmpty (parmsRemoveData st k P) := by
  unfold parmsRemoveData
  split
  · exact h
  · split
    · exact noEmpty_cleanup k (noEmpty_popA h)
    · exact noEmpty_upd_cleanup k _ h

/-- A successful `includeParms` call whose computed inclusion record is
nonempty (for inclusions) preserves the no-empty-record invariant. -/
theorem includeParms_noEmpty {sc : Scene} {selfName : String} {st : Store}
    {node : String} {pd : Rec} {inc spv : Bool} {st1 : Store} {sc1 : Scene}
    {tr : List String} (h : NoEmpty st)
    (hg : inc = true → ∀ n, houNode sc node = some n → parmsIncludedOf n pd ≠ [])
    (hres : includeParms sc selfName st node pd inc spv = (.ok (st1, sc1), tr)) :
    NoEmpty st1 := by
  unfold includeParms at hres
  split at hres
  · exact absurd hres (by simp)
  · rename_i n hn
    split at hres
    · exact absurd hres (by simp)
    · split at hres
      · exact absurd hres (by simp)
      · rename_i P tr1 hstep
        have hP : P = parmsIncludedOf n pd := by
          unfold parmsIncludedOf
          split at hstep
          · rename_i hemp
            rw [if_pos hemp]
            split at hstep
            all_goals
              split at hstep
              · exact absurd hstep (by simp)
              · simp only [Prod.mk.injEq, Except.ok.injEq] at hstep
                exact hstep.1.symm
          · rename_i hemp
            rw [if_neg hemp]
            exact includeParmsLoop_ok pd [] _ _ P hstep
        simp only [Prod.mk.injEq, Except.ok.injEq] at hres
        rcases Bool.eq_false_or_eq_true inc with hinc | hinc
        · rw [← hres.1.1, hinc, if_pos rfl]
          exact noEmpty_parmsAddData h (hP ▸ hg hinc n hn)
        · rw [← hres.1.1, hinc]
          simp only [Bool.false_eq_true, if_false]
          exact noEmpty_parmsRemoveData h

/-- One successful, `opGood` call preserves the no-empty-record invariant. -/
theorem applyOp_noEmpty {selfName : String} {sc : Scene} {st : Store} {op : Op}
    {st1 : Store} {sc1 : Scene} {tr : List String}
    (h : NoEmpty st) (hg : opGood sc op = true)
    (hres : applyOp selfName sc st op = (.ok (st1, sc1), tr)) : NoEmpty st1 := by
  cases op with
  | incFlag flag node inc sf fv =>
    simp only [applyOp] at hres
    split at hres
    · exact absurd hres (by simp)
    · rename_i st2 sc2 r tr2 heq
      simp only [Prod.mk.injEq, Except.ok.injEq] at hres
      rw [← hres.1.1]
      exact includeExcludeFlag_noEmpty h heq
  | incParms node pd inc spv =>
    simp only [applyOp] at hres
    apply includeParms_noEmpty h ?_ hres
    intro hinc n hn
    simp only [opGood, hinc, hn, Bool.not_true, Bool.false_or] at hg
    rw [← List.isEmpty_eq_false]
    simpa using hg

/-- C2 (amended): over any sequence of successful include/exclude calls in
which every `includeParms` inclusion actually records at least one key,
the local member store never maps an object path to a record with both an
empty flag set and an empty parameter set; a record that becomes empty is
removed immediately. -/
theorem c2_member_store_invariant (selfName : String) (sc : Scene) (st : Store)
    (ops : List Op) (st1 : Store) (sc1 : Scene)
    (hgood : goodTrace selfName sc st ops = true)
    (hrun : runOps selfName sc st ops = .ok (st1, sc1))
    (h0 : noEmptyB st = true) : noEmptyB st1 = true := by
  rw [noEmptyB_iff] at h0 ⊢
  induction ops generalizing sc st with
  | nil =>
    simp only [runOps, Except.ok.injEq, Prod.mk.injEq] at hrun
    rw [← hrun.1]
    exact h0
  | cons op rest ih =>
    rcases happ : applyOp selfName sc st op with ⟨res, tr⟩
    cases res with
    | error e =>
      simp only [runOps, happ] at hrun
      exact absurd hrun (by simp)
    | ok p =>
      obtain ⟨st2, sc2⟩ := p
      simp only [runOps, happ] at hrun
      simp only [goodTrace, happ, Bool.and_eq_true] at hgood
      exact ih sc2 st2 hgood.2 hrun (applyOp_noEmpty h0 hgood.1 happ)

/-! ## Evaluation lemmas for single flag calls -/

theorem flagProbe_display {n : Node} {p : String} {b : Bool}
    (hb : n.displayFlag = some b) : flagProbe n "-d" p = .ok ("display_flag", b) := by
  unfold flagProbe
  rw [if_pos (by rfl)]
  rw [hb]

theorem includeExcludeFlag_eval_ok {sc : Scene} {selfName : String} {st : Store}
    {flag nodePath : String} {incF sf fv : Bool} {n : Node} {label : String}
    {val : Bool} {stm : Store}
    (hn : houNode sc nodePath = some n)
    (hp : flagProbe n flag nodePath = .ok (label, val))
    (hu : flagDictUpdate st nodePath label val incF = .ok stm)
    (hhost : ∀ c, (sc.host c).2 = "") :
    includeExcludeFlag sc selfName st flag nodePath incF sf fv
      = (.ok (flagCleanup stm nodePath,
          (flagSetAfter sc nodePath flag incF sf fv).1,
          (flagSetAfter sc nodePath flag incF sf fv).2),
        ["takeset " ++ selfName, takeincludeCmd incF flag nodePath]) := by
  unfold includeExcludeFlag
  simp only [hn, hp, hu, hhost]
  simp

theorem includeExcludeFlag_eval_keyerror {sc : Scene} {selfName : String}
    {st : Store} {flag nodePath : String} {sf fv : Bool} {n : Node}
    {label : String} {val : Bool}
    (hn : houNode sc nodePath = some n)
    (hp : flagProbe n flag nodePath = .ok (label, val))
    (h0 : lookupA st nodePath = none) :
    includeExcludeFlag sc selfName st flag nodePath false sf fv
      = (.error (.keyError nodePath), []) := by
  unfold includeExcludeFlag
  have hu : flagDictUpdate st nodePath label val false
      = .error (.keyError nodePath) := by
    unfold flagDictUpdate
    simp [h0]
  simp only [hn, hp, hu]

/-- C7: on a node supporting the display flag, with every host directive
succeeding, `includeDisplayFlag(A, include=True)` followed by
`includeDisplayFlag(A, include=False)` leaves the local member store with
no entry for A's path, assuming A had no other included flags or
parameters (no prior entry for its path). -/
theorem c7_display_include_then_exclude (sc : Scene) (selfName : String)
    (st : Store) (a : String) (n : Node) (b : Bool)
    (ha : houNode sc a = some n) (hb : n.displayFlag = some b)
    (hhost : ∀ c, (sc.host c).2 = "") (h0 : lookupA st a = none) :
    ∃ st1 r1 tr1 st2 r2 tr2,
      includeDisplayFlag sc selfName st a true false true = (.ok (st1, sc, r1), tr1) ∧
      includeDisplayFlag sc selfName st1 a false false true = (.ok (st2, sc, r2), tr2) ∧
      lookupA st2 a = none := by
  have hp := @flagProbe_display n a b hb
  have hu1 : flagDictUpdate st a "display_flag" b true
      = .ok (updA st a [("display_flag", .vBool b)]) := by
    unfold flagDictUpdate
    simp [h0]
  have h1 := @includeExcludeFlag_eval_ok sc selfName st "-d" a true false true
    n "display_flag" b _ ha hp hu1 hhost
  have hcl1 : flagCleanup (updA st a [("display_flag", .vBool b)]) a
      = updA st a [("display_flag", .vBool b)] := by
    unfold flagCleanup
    rw [lookupA_updA_self]
    rfl
  rw [hcl1] at h1
  have hl1 : lookupA (updA st a [("display_flag", .vBool b)]) a
      = some [("display_flag", .vBool b)] := lookupA_updA_self st a _
  have hu2 : flagDictUpdate (updA st a [("display_flag", .vBool b)]) a
      "display_flag" b false
      = .ok (updA (updA st a [("display_flag", .vBool b)]) a []) := by
    unfold flagDictUpdate
    rw [hl1]
    rfl
  have h2 := @includeExcludeFlag_eval_ok sc selfName
    (updA st a [("display_flag", PyVal.vBool b)]) "-d" a false false true
    n "display_flag" b _ ha hp hu2 hhost
  have hcl2 : flagCleanup (updA (updA st a [("display_flag", .vBool b)]) a []) a
      = popA (updA (updA st a [("display_flag", .vBool b)]) a []) a := by
    unfold flagCleanup
    rw [lookupA_updA_self]
    rfl
  rw [hcl2] at h2
  exact ⟨_, _, _, _, _, _, h1, h2, lookupA_popA_self _ a⟩

theorem c7_display_include_then_exclude_witness :
    ∃ st1 r1 tr1 st2 r2 tr2,
      includeDisplayFlag wScene "t" [] "/obj/geo1" true false true
        = (.ok (st1, wScene, r1), tr1) ∧
      includeDisplayFlag wScene "t" st1 "/obj/geo1" false false true
        = (.ok (st2, wScene, r2), tr2) ∧
      lookupA st2 "/obj/geo1" = none :=
  c7_display_include_then_exclude wScene "t" [] "/obj/geo1" wNode false
    rfl rfl (fun _ => rfl) rfl

/-- C8 (the code as it stands): `includeRenderFlag(node, include=True)`
records under `"render_flag"` the node's DISPLAY-flag value (src 257-258),
not its render-flag value: here the node's render flag is `true`, yet
`false` (its display value) is stored. -/
theorem c8_render_records_display_value :
    (includeRenderFlag wScene "t" [] "/obj/geo1" true false true).1
      = .ok ([("/obj/geo1", [("render_flag", .vBool false)])], wScene, none) ∧
    wNode.renderFlag = some true ∧
    lookupA [("/obj/geo1", [("render_flag", PyVal.vBool false)])] "/obj/geo1"
      ≠ some [("render_flag", PyVal.vBool true)] := by
  refine ⟨rfl, rfl, ?_⟩
  intro h
  simp [lookupA] at h

/-- C9: a flag exclusion (`include=False`) through `_includeExcludeFlag`
on a node whose path has no record in the local store raises `KeyError`
from the local-store update, with no hscript directive issued at all
(so in particular before any include/exclude directive reaches the host). -/
theorem c9_exclude_missing_keyerror (sc : Scene) (selfName : String)
    (st : Store) (flag a : String) (sf fv : Bool) (n : Node)
    (label : String) (val : Bool)
    (hn : houNode sc a = some n)
    (hp : flagProbe n flag a = .ok (label, val))
    (h0 : lookupA st a = none) :
    includeExcludeFlag sc selfName st flag a false sf fv
      = (.error (.keyError a), []) :=
  includeExcludeFlag_eval_keyerror hn hp h0

theorem c9_exclude_missing_keyerror_witness :
    includeExcludeFlag wScene "t" [] "-d" "/obj/geo1" false false true
      = (.error (.keyError "/obj/geo1"), []) :=
  c9_exclude_missing_keyerror wScene "t" [] "-d" "/obj/geo1" false true
    wNode "display_flag" false rfl rfl rfl

/-- C10: whenever the host returns a non-empty error for `takeset Main`,
`returnToMainTake` raises the Python builtin `TabError` (src 108), which
is outside the module's TakeError class hierarchy. -/
theorem c10_return_main_taberror (sc : Scene) (e : String)
    (he : (sc.host "takeset Main").2 = e) (hne : e ≠ "") :
    returnToMainTake sc = (.error (.tabError e), ["takeset Main"]) ∧
    isTakeErrorClass (.tabError e) = false := by
  constructor
  · unfold returnToMainTake
    rw [he, if_pos hne]
  · rfl

theorem c10_return_main_taberror_witness :
    returnToMainTake failMainScene
      = (.error (.tabError "no such take"), ["takeset Main"]) ∧
    isTakeErrorClass (.tabError "no such take") = false :=
  c10_return_main_taberror failMainScene "no such take" rfl (by decide)

/-! ## Lookup laws of the dict merge (for C6) -/

theorem lookupA_nil {β : Type} (k : String) : lookupA ([] : List (String × β)) k = none := rfl

theorem lookupA_append {β : Type} (x y : List (String × β)) (k : String) :
    lookupA (x ++ y) k = (lookupA x k).or (lookupA y k) := by
  unfold lookupA
  rw [List.find?_append]
  cases x.find? (fun kv => kv.1 == k) <;> simp [Option.or]

theorem lookupA_foldl_updA {β : Type} :
    ∀ (L : List (String × β)) (d : List (String × β)) (k : String),
      lookupA (L.foldl (fun acc kv => updA acc kv.1 kv.2) d) k
        = (lookupA L.reverse k).or (lookupA d k) := by
  intro L
  induction L with
  | nil => intro d k; simp [lookupA]
  | cons a L ih =>
    intro d k
    rw [List.foldl_cons, ih (updA d a.1 a.2) k, List.reverse_cons, lookupA_append]
    by_cases hk : a.1 = k
    · subst hk
      rw [lookupA_updA_self]
      have : lookupA [a] a.1 = some a.2 := by
        rw [lookupA_cons]
        simp
      rw [this, Option.or_assoc]
      cases lookupA L.reverse a.1 <;> simp [Option.or]
    · rw [lookupA_updA_ne (fun h => hk h.symm)]
      have : lookupA [a] k = none := by
        rw [lookupA_cons, if_neg (by simpa using hk)]
        rfl
      rw [this, Option.or_assoc]
      cases lookupA L.reverse k <;> simp [Option.or]

theorem lookupA_some_mem {β : Type} {d : List (String × β)} {k : String} {v : β}
    (h : lookupA d k = some v) : (k, v) ∈ d := by
  unfold lookupA at h
  cases hf : d.find? (fun kv => kv.1 == k) with
  | none => rw [hf] at h; simp at h
  | some kv =>
    rw [hf] at h
    simp only [Option.map_some', Option.some.injEq] at h
    have hm := List.mem_of_find?_eq_some hf
    have hp := List.find?_some hf
    simp only [beq_iff_eq] at hp
    obtain ⟨k1, v1⟩ := kv
    simp only at hp h
    rw [← hp, ← h]
    exact hm

theorem lookupA_eq_none_iff {β : Type} {d : List (String × β)} {k : String} :
    lookupA d k = none ↔ ∀ kv ∈ d, kv.1 ≠ k := by
  unfold lookupA
  rw [Option.map_eq_none', List.find?_eq_none]
  constructor
  · intro h kv hkv
    simpa using h kv hkv
  · intro h kv hkv
    simpa using h kv hkv

theorem lookupA_mem_iff {β : Type} {d : List (String × β)} {k : String} {v : β}
    (hw : WFKeys d) : lookupA d k = some v ↔ (k, v) ∈ d := by
  constructor
  · exact lookupA_some_mem
  · intro hm
    induction d with
    | nil => simp at hm
    | cons a t ih =>
      unfold WFKeys at hw
      rw [List.map_cons, List.nodup_cons] at hw
      rw [lookupA_cons]
      rcases List.mem_cons.mp hm with rfl | hmt
      · simp
      · have hk : a.1 ≠ k := by
          intro hak
          apply hw.1
          rw [hak]
          exact List.mem_map.mpr ⟨(k, v), hmt, rfl⟩
        rw [if_neg (by simpa using hk)]
        exact ih hw.2 hmt

theorem wfKeys_reverse {β : Type} {d : List (String × β)} (hw : WFKeys d) :
    WFKeys d.reverse := by
  unfold WFKeys at hw ⊢
  rw [List.map_reverse, List.nodup_reverse]
  exact hw

theorem lookupA_reverse {β : Type} {d : List (String × β)} (hw : WFKeys d)
    (k : String) : lookupA d.reverse k = lookupA d k := by
  cases hd : lookupA d k with
  | some v =>
    rw [lookupA_mem_iff (wfKeys_reverse hw), List.mem_reverse]
    exact lookupA_some_mem hd
  | none =>
    rw [lookupA_eq_none_iff] at hd ⊢
    intro kv hkv
    exact hd kv (List.mem_reverse.mp hkv)

/-- C6: after a successful `includeParmsFromTake(source, force)` (either
force value), the destination's local member store is the key-wise union
of the two stores in which a colliding object path takes the source's
entire record. -/
theorem c6_merge_union (sc : Scene) (selfName : String) (dst : Store)
    (srcName : String) (srcStore : Store) (force : Bool)
    (hwd : WFKeys dst) (hws : WFKeys srcStore)
    (hmem : srcName ∈ sc.takeList)
    (hhost : ∀ c, (sc.host c).2 = "") :
    ∃ out tr,
      includeParmsFromTake sc selfName dst srcName srcStore force = (.ok out, tr) ∧
      ∀ k, lookupA out k = ((lookupA srcStore k).or (lookupA dst k)) := by
  unfold includeParmsFromTake
  rw [if_pos hmem]
  rw [if_neg (by simp [hhost])]
  refine ⟨_, _, rfl, ?_⟩
  intro k
  unfold pyDictOfItems
  rw [lookupA_foldl_updA, List.reverse_append, lookupA_append,
    lookupA_reverse hws, lookupA_reverse hwd, lookupA_nil]
  cases lookupA srcStore k <;> cases lookupA dst k <;> simp [Option.or]

theorem c6_merge_union_witness :
    ∃ out tr,
      includeParmsFromTake wScene "t" [("/obj/geo1", [("tx", PyVal.vInt 1)])]
        "src" [("/obj/geo1", [("ty", PyVal.vInt 2)])] false = (.ok out, tr) ∧
      ∀ k, lookupA out k
        = ((lookupA [("/obj/geo1", [("ty", PyVal.vInt 2)])] k).or
           (lookupA [("/obj/geo1", [("tx", PyVal.vInt 1)])] k)) :=
  c6_merge_union wScene "t" [("/obj/geo1", [("tx", PyVal.vInt 1)])]
    "src" [("/obj/geo1", [("ty", PyVal.vInt 2)])] false
    (by unfold WFKeys; decide) (by unfold WFKeys; decide) (by decide) (fun _ => rfl)

/-! ## Take construction claims (C1 and C5) -/

/-- C1 (amended): constructing a take whose non-empty parent name is
neither in the live take list nor `"Main"` does NOT fail; the source
prints a warning, silently replaces the parent by `"Main"`, and the
construction succeeds (when the host accepts the create directive), with
the allocated name and an empty member store. -/
theorem c1_missing_parent_falls_back (sc : Scene) (name parent : String)
    (s2c : Bool) (hp1 : parent ≠ "") (hp2 : parent ∉ sc.takeList)
    (hp3 : parent ≠ "Main") (hhost : ∀ c, (sc.host c).2 = "") :
    ∃ t sc1 tr,
      takeInit sc name parent s2c [] false true = (.ok (t, sc1), tr) ∧
      t.parent = "-p Main" ∧
      t.name = incName sc.takeList (checkName name) ∧
      t.node_included = [] := by
  simp only [takeInit, createTake, takeInitLoop, if_true]
  rw [if_pos hp1]
  rw [if_pos (show parent ∉ sc.takeList ∧ parent ≠ "Main" from ⟨hp2, hp3⟩)]
  rw [if_neg (incName_not_mem sc.takeList (checkName name))]
  simp only [hhost, ne_eq, eq_self_iff_true, not_true, if_false]
  exact ⟨_, _, _, rfl, rfl, rfl, rfl⟩

/-- C1 fails on the code as claimed: with parent `"ghost"` absent from the
take list, construction SUCCEEDS (no TakeCreationError-class condition)
and the take is created with `"Main"` as parent. -/
theorem c1_counterexample :
    (takeInit c1Scene "pytake" "ghost" false [] false true).1.isOk = true ∧
    ((takeInit c1Scene "pytake" "ghost" false [] false true).1.toOption.map
      (fun x => x.1.parent)) = some "-p Main" := by
  exact ⟨rfl, rfl⟩

theorem c1_missing_parent_falls_back_witness :
    ∃ t sc1 tr,
      takeInit c1Scene "pytake" "ghost" false [] false true = (.ok (t, sc1), tr) ∧
      t.parent = "-p Main" ∧
      t.name = incName c1Scene.takeList (checkName "pytake") ∧
      t.node_included = [] :=
  c1_missing_parent_falls_back c1Scene "pytake" "ghost" false
    (by decide) (by decide) (by decide) (fun _ => rfl)

/-- C5 fails on the code as claimed: re-creating `"t1"` does not yield
`"t11"` or `"t12"`. -/
theorem c5_counterexample :
    ¬(((takeInit c5Scene "t1" "" false [] false true).1.toOption.map
          (fun x => x.1.name) = some "t11") ∨
      ((takeInit c5Scene "t1" "" false [] false true).1.toOption.map
          (fun x => x.1.name) = some "t12")) := by
  decide

/-- C5 (amended): when `"t1"` already exists, creating another take with
proposed name `"t1"` succeeds (no collision error) and the allocator
yields `"t2"` — the digit-increment rule bumps the trailing run. -/
theorem c5_take_t1_again_yields_t2 :
    (takeInit c5Scene "t1" "" false [] false true).1.isOk = true ∧
    ((takeInit c5Scene "t1" "" false [] false true).1.toOption.map
      (fun x => x.1.name)) = some "t2" := by
  exact ⟨rfl, rfl⟩

/-- C2 fails on the code as claimed: one successful `includeParms`
inclusion of a node with no parameters (empty `parms_dict`, so the
include-all path) inserts the path with an EMPTY record, which then lives
in the store. -/
theorem c2_counterexample :
    (includeParms c2Scene "t" [] "/obj/empty" [] true false).1
      = .ok ([("/obj/empty", [])], c2Scene) ∧
    noEmptyB [("/obj/empty", [])] = false := by
  exact ⟨rfl, rfl⟩

theorem c2_member_store_invariant_witness : noEmptyB [] = true :=
  c2_member_store_invariant "t" wScene []
    [Op.incFlag "-d" "/obj/geo1" true false true,
     Op.incFlag "-d" "/obj/geo1" false false true] [] wScene
    rfl rfl rfl

/-! ## C3: line dispatch of the script reconciler -/

/-- Behaviour of the flag branch of `_readScript` once the substring test
has selected it. -/
theorem scriptFlagToDic_eval (sc : Scene) (d : Store) (line flag label : String)
    (hc : containsSub line flag = true) :
    (houNode sc ((splitSpaces line).getLastD "") = none →
      scriptFlagToDic sc d line flag label = .ok d) ∧
    (∀ n fv, houNode sc ((splitSpaces line).getLastD "") = some n →
      (if flag == "-d" then n.displayFlag
       else if flag == "-r" then n.renderFlag else n.bypassFlag) = some fv →
      scriptFlagToDic sc d line flag label
        = .ok (scriptRecordParm d ((splitSpaces line).getLastD "") label (.vBool fv))) := by
  constructor
  · intro hn
    unfold scriptFlagToDic
    rw [if_pos hc]
    simp only [hn]
  · intro n fv hn hfv
    unfold scriptFlagToDic
    rw [if_pos hc]
    simp only [hn, hfv]
    rfl

/-- C3 (amended): a script line is handled as a flag-inclusion line
exactly when, after stripping the `-q` marker, it CONTAINS one of the
substrings `-r`, `-d`, `-b` anywhere (tested in that order) — the node
path then being the line's LAST whitespace token; every other line is
treated as `<token1> <token2>` and, when the object at token 1 has a
parameter literally named token 2, its evaluated value is recorded under
that exact name. -/
theorem c3_line_dispatch (sc : Scene) (d : Store) (line L : String)
    (hL : replaceStr line " -q" "" = L) :
    (containsSub L "-r" = true →
      (houNode sc ((splitSpaces L).getLastD "") = none →
        readScriptLine sc d line = .ok d) ∧
      (∀ n b, houNode sc ((splitSpaces L).getLastD "") = some n →
        n.renderFlag = some b →
        readScriptLine sc d line
          = .ok (scriptRecordParm d ((splitSpaces L).getLastD "")
              "render_flag" (.vBool b)))) ∧
    (containsSub L "-r" = false → containsSub L "-d" = true →
      (houNode sc ((splitSpaces L).getLastD "") = none →
        readScriptLine sc d line = .ok d) ∧
      (∀ n b, houNode sc ((splitSpaces L).getLastD "") = some n →
        n.displayFlag = some b →
        readScriptLine sc d line
          = .ok (scriptRecordParm d ((splitSpaces L).getLastD "")
              "display_flag" (.vBool b)))) ∧
    (containsSub L "-r" = false → containsSub L "-d" = false →
      containsSub L "-b" = true →
      (houNode sc ((splitSpaces L).getLastD "") = none →
        readScriptLine sc d line = .ok d) ∧
      (∀ n b, houNode sc ((splitSpaces L).getLastD "") = some n →
        n.bypassFlag = some b →
        readScriptLine sc d line
          = .ok (scriptRecordParm d ((splitSpaces L).getLastD "")
              "bypass_flag" (.vBool b)))) ∧
    (containsSub L "-r" = false → containsSub L "-d" = false →
      containsSub L "-b" = false →
      ∀ t0 p q rest, splitSpaces L = t0 :: p :: q :: rest →
        ∀ n v, houNode sc p = some n → parmOf n q = some v →
          readScriptLine sc d line = .ok (scriptRecordParm d p q v)) := by
  subst hL
  refine ⟨?_, ?_, ?_, ?_⟩
  · intro hr
    have hev := scriptFlagToDic_eval sc d (replaceStr line " -q" "")
      "-r" "render_flag" hr
    constructor
    · intro hn
      simp only [readScriptLine]
      rw [if_pos hr]
      exact hev.1 hn
    · intro n b hn hb
      simp only [readScriptLine]
      rw [if_pos hr]
      exact hev.2 n b hn hb
  · intro hr hd
    have hev := scriptFlagToDic_eval sc d (replaceStr line " -q" "")
      "-d" "display_flag" hd
    constructor
    · intro hn
      simp only [readScriptLine]
      rw [hr, if_neg (by simp), if_pos hd]
      exact hev.1 hn
    · intro n b hn hb
      simp only [readScriptLine]
      rw [hr, if_neg (by simp), if_pos hd]
      exact hev.2 n b hn hb
  · intro hr hd hb
    have hev := scriptFlagToDic_eval sc d (replaceStr line " -q" "")
      "-b" "bypass_flag" hb
    constructor
    · intro hn
      simp only [readScriptLine]
      rw [hr, hd, if_neg (by simp), if_neg (by simp), if_pos hb]
      exact hev.1 hn
    · intro n b hn hbf
      simp only [readScriptLine]
      rw [hr, hd, if_neg (by simp), if_neg (by simp), if_pos hb]
      exact hev.2 n b hn hbf
  · intro hr hd hb t0 p q rest hsplit n v hn hv
    simp only [readScriptLine]
    rw [hr, hd, hb, if_neg (by simp), if_neg (by simp), if_neg (by simp)]
    simp only [scriptParmLine]
    rw [hsplit]
    simp only [List.get?, hn, hv]

/-- C3 fails on the code as claimed: the line
`takeinclude /obj/geo-d tx` names no flag token among its tokens, and the
object `/obj/geo-d` has a parameter literally named `tx`; yet nothing is
recorded, because the substring `-d` inside the path sends the line down
the display-flag branch, whose last-token node lookup (`tx`) fails. -/
theorem c3_counterexample :
    readScriptLine c3Scene [] "takeinclude /obj/geo-d tx" = .ok [] ∧
    houNode c3Scene "/obj/geo-d" = some c3Node ∧
    parmOf c3Node "tx" = some (.vInt 1) := by
  exact ⟨rfl, rfl, rfl⟩

theorem c3_line_dispatch_witness :
    readScriptLine wScene [] "takeinclude -d /obj/geo1"
      = .ok (scriptRecordParm [] "/obj/geo1" "display_flag" (.vBool false)) :=
  ((c3_line_dispatch wScene [] "takeinclude -d /obj/geo1"
      "takeinclude -d /obj/geo1" rfl).2.1
    (by decide) (by decide)).2 wNode false rfl rfl

end PyTake2
